import Mathlib

/-!
Shallow embedding of djangopypi's release/distribution access-control core
(`djangopypi/views/releases.py`, with the uniqueness constraints declared in
`djangopypi/migrations/0003_auto.py`), together with theorems checking the
natural-language specification against it.

Database rows are modelled as Lean structures; querysets become lists and
`filter`; the request is modelled by its security-relevant inputs (the
session principal, and the principal that the basic-auth fallback would
resolve, both `Option User`).
-/

namespace DjangoPyPI

/-- Group identifiers (Django `auth.Group` rows are referenced by id). -/
abbrev GroupId := Nat

/-- A principal: `auth.User` restricted to the fields the core reads
(`username`, `is_superuser`, `groups`). -/
structure User where
  username : String
  is_superuser : Bool
  groups : List GroupId
deriving DecidableEq

/-- `djangopypi.Package` restricted to the fields the core reads, per the
model declared in `migrations/0003_auto.py` and the fields used in
`views/releases.py` (`download_permissions`, `allow_authenticated`). -/
structure Package where
  name : String
  group_owner : List GroupId
  group_maintainers : List GroupId
  download_permissions : List GroupId
  allow_authenticated : Bool
deriving DecidableEq

/-- `release.package_info` is a `QueryDict`-like ordered multi-valued
mapping: an association list from key to its ordered list of values. -/
def PackageInfo := List (String × List String)
deriving DecidableEq

/-- `djangopypi.Release`: belongs to one `Package` (modelled inline),
with `version`, `metadata_version` (default `"1.0"`), `package_info`
and the `hidden` flag. -/
structure Release where
  package : Package
  version : String
  metadata_version : String
  package_info : PackageInfo
  hidden : Bool
deriving DecidableEq

/-- `djangopypi.Distribution`: belongs to one `Release` (modelled inline),
with the artifact tag fields and the stored `content` path. -/
structure Distribution where
  release : Release
  filetype : String
  pyversion : String
  content : String
  md5_digest : String
  comment : String
  uploader : String
deriving DecidableEq

/-- The database state the views query: the `Package`, `Release` and
`Distribution` tables. -/
structure Registry where
  packages : List Package
  releases : List Release
  distributions : List Distribution
deriving DecidableEq

/-- `user_releases(user)` (views/releases.py:23): the releases a user may
view.  Superusers see everything; otherwise the queryset keeps releases whose
package has an empty `download_permissions` set, or `allow_authenticated`
true, or a download-permission group among the user's groups.  (`distinct()`
is a no-op in this list model, where `filter` never duplicates rows.) -/
def user_releases (releases : List Release) (user : User) : List Release :=
  if user.is_superuser then
    releases
  else
    releases.filter (fun r =>
      r.package.download_permissions.isEmpty ||
      r.package.allow_authenticated ||
      r.package.download_permissions.any (fun g => user.groups.contains g))

/-- `anonymous_releases()` (views/releases.py:34): the releases any site
visitor can access — empty `download_permissions` AND `allow_authenticated`
false. -/
def anonymous_releases (releases : List Release) : List Release :=
  releases.filter (fun r =>
    r.package.download_permissions.isEmpty && !r.package.allow_authenticated)

/-- Modelled from the spec: the Permission Evaluator's read decision (§4.2)
for an authenticated principal.  The source's `user_packages` lives in
`djangopypi/views/packages.py`, which is not among the provided sources.
Spec rules, in order: superuser granted; empty `download_permissions` with
`allow_authenticated` false granted to everyone; `allow_authenticated` true
granted to any authenticated principal; otherwise granted iff the
principal's groups intersect `download_permissions`. -/
def read_access (user : User) (p : Package) : Bool :=
  user.is_superuser ||
  (p.download_permissions.isEmpty && !p.allow_authenticated) ||
  p.allow_authenticated ||
  p.download_permissions.any (fun g => user.groups.contains g)

/-- Modelled from the spec: `user_packages(user)`
(djangopypi/views/packages.py, not among the provided sources) — the
packages a given authenticated principal may read, per the Evaluator. -/
def user_packages (packages : List Package) (user : User) : List Package :=
  packages.filter (read_access user)

/-- Responses `download_dist` can produce: `sendfile(..., attachment=True)`,
`HttpResponseUnauthorized('pypi')`, `HttpResponseForbidden(error)`, or the
`Http404` of `get_object_or_404`. -/
inductive DownloadResponse where
  | served (attachment : Bool)
  | unauthorized (realm : String)
  | forbidden (body : String)
  | notFound
deriving DecidableEq

/-- A download response together with the audit log lines emitted while
producing it. -/
structure DownloadResult where
  response : DownloadResponse
  log : List String
deriving DecidableEq

/-- The audit line of `download_dist.serve`:
`'user: %s package: %s downloaded' % (username, package.name)`. -/
def serveLine (username pkgname : String) : String :=
  "user: " ++ username ++ " package: " ++ pkgname ++ " downloaded"

/-- The audit line (and response body) of `download_dist.forbidden`:
`'user: %s package: %s download permission denied'`. -/
def deniedLine (username pkgname : String) : String :=
  "user: " ++ username ++ " package: " ++ pkgname ++ " download permission denied"

/-- `download_dist(request, path)` (views/releases.py:236).  The request is
modelled by `sessionUser` (`request.user` when `is_authenticated()`, else
`none`) and `basicUser` (the principal `login_basic_auth(request)` would
return, an external collaborator per spec §6).  Resolves the path to a
`Distribution`; serves anonymously when the package has no
download-permission groups and `allow_authenticated` is false; otherwise
authenticates and checks membership of the package in `user_packages`. -/
def download_dist (st : Registry) (sessionUser basicUser : Option User)
    (path : String) : DownloadResult :=
  match st.distributions.find? (fun d => d.content == path) with
  | none => ⟨DownloadResponse.notFound, []⟩
  | some dist =>
    let package := dist.release.package
    if package.download_permissions.length == 0 && !package.allow_authenticated then
      ⟨DownloadResponse.served true, [serveLine "Anonymous" package.name]⟩
    else
      match (match sessionUser with
             | some u => some u
             | none => basicUser) with
      | none => ⟨DownloadResponse.unauthorized "pypi", []⟩
      | some user =>
        if (user_packages st.packages user).contains package then
          ⟨DownloadResponse.served true, [serveLine user.username package.name]⟩
        else
          ⟨DownloadResponse.forbidden (deniedLine user.username package.name),
           [deniedLine user.username package.name]⟩

/- Concrete rows used by counterexamples and witnesses. -/

/-- A package with no download-permission groups but `allow_authenticated`
set to true. -/
def pkgAA : Package := ⟨"secretpkg", [], [], [], true⟩

/-- The sole release of `pkgAA`. -/
def relAA : Release := ⟨pkgAA, "1.0", "1.0", [], false⟩

/-- The sole artifact of `relAA`. -/
def distAA : Distribution :=
  ⟨relAA, "sdist", "", "dists/secretpkg-1.0.tar.gz", "", "", "alice"⟩

/-- Registry holding only `pkgAA`. -/
def stAA : Registry := ⟨[pkgAA], [relAA], [distAA]⟩

/-- A fully public package: no download-permission groups,
`allow_authenticated` false. -/
def pkgPub : Package := ⟨"pubpkg", [], [], [], false⟩

/-- The sole release of `pkgPub`. -/
def relPub : Release := ⟨pkgPub, "1.0", "1.0", [], false⟩

/-- The sole artifact of `relPub`. -/
def distPub : Distribution :=
  ⟨relPub, "sdist", "", "dists/pubpkg-1.0.tar.gz", "", "", "alice"⟩

/-- Registry holding only `pkgPub`. -/
def stPub : Registry := ⟨[pkgPub], [relPub], [distPub]⟩

/-- A group-restricted package: download restricted to group 3,
`allow_authenticated` false. -/
def pkgGrp : Package := ⟨"grouppkg", [], [], [3], false⟩

/-- The sole release of `pkgGrp`. -/
def relGrp : Release := ⟨pkgGrp, "1.0", "1.0", [], false⟩

/-- The sole artifact of `relGrp`. -/
def distGrp : Distribution :=
  ⟨relGrp, "sdist", "", "dists/grouppkg-1.0.tar.gz", "", "", "alice"⟩

/-- Registry holding only `pkgGrp`. -/
def stGrp : Registry := ⟨[pkgGrp], [relGrp], [distGrp]⟩

/-- An ordinary authenticated user in group 7 only. -/
def uBob : User := ⟨"bob", false, [7]⟩

/-- A superuser belonging to no groups. -/
def uRoot : User := ⟨"root", true, []⟩

/-- A package whose read decision is negative never appears in
`user_packages`, so the queryset membership test of `download_dist` fails. -/
theorem contains_user_packages_eq_false (ps : List Package) (u : User) (p : Package)
    (h : read_access u p = false) : (user_packages ps u).contains p = false := by
  by_contra hc
  rw [Bool.not_eq_false] at hc
  have hmem : p ∈ user_packages ps u := by
    simpa using hc
  have hp := (List.mem_filter.mp hmem).2
  rw [h] at hp
  exact Bool.false_ne_true hp

/-- C1, counterexample: `pkgAA` has an empty `download_permissions` set but
`allow_authenticated = true`; the anonymous release queryset excludes its
release and the anonymous download path answers 401 instead of serving, so
an empty `download_permissions` set is NOT public regardless of
`allow_authenticated`. -/
theorem c1_counterexample :
    pkgAA.download_permissions = [] ∧
    pkgAA.allow_authenticated = true ∧
    anonymous_releases stAA.releases = [] ∧
    download_dist stAA none none "dists/secretpkg-1.0.tar.gz" =
      ⟨DownloadResponse.unauthorized "pypi", []⟩ := by
  decide

/-- C1 (amended): a package with empty `download_permissions` is visible to
every authenticated principal (superuser or not) regardless of
`allow_authenticated`, but the anonymous paths treat it as unrestricted only
when `allow_authenticated` is also false: its release is in
`anonymous_releases` iff `allow_authenticated = false`. -/
theorem c1_empty_permissions_amended (st : Registry) (u : User) (r : Release)
    (hmem : r ∈ st.releases)
    (hempty : r.package.download_permissions = []) :
    r ∈ user_releases st.releases u ∧
    (r ∈ anonymous_releases st.releases ↔ r.package.allow_authenticated = false) := by
  constructor
  · unfold user_releases
    by_cases hs : u.is_superuser <;> simp [hs, List.mem_filter, hmem, hempty]
  · unfold anonymous_releases
    simp [List.mem_filter, hmem, hempty]

/-- C1 witness: the amended claim evaluated on the public package `pkgPub`
and the ordinary user `uBob`. -/
theorem c1_empty_permissions_amended_witness :
    relPub ∈ user_releases stPub.releases uBob ∧
    (relPub ∈ anonymous_releases stPub.releases ↔
      relPub.package.allow_authenticated = false) :=
  c1_empty_permissions_amended stPub uBob relPub (by decide) (by decide)

/-- C2: when the path resolves to a distribution of a package with zero
download-permission groups and `allow_authenticated` false, `download_dist`
serves the artifact as a forced-download attachment without consulting the
session or the basic-auth fallback (the result is the same for every
`sessionUser` and `basicUser`), and logs one audit line naming `Anonymous`
and the package. -/
theorem c2_public_anonymous_serve (st : Registry) (su bu : Option User) (path : String)
    (dist : Distribution)
    (hfind : st.distributions.find? (fun d => d.content == path) = some dist)
    (hperm : dist.release.package.download_permissions = [])
    (haa : dist.release.package.allow_authenticated = false) :
    download_dist st su bu path =
      ⟨DownloadResponse.served true, [serveLine "Anonymous" dist.release.package.name]⟩ := by
  unfold download_dist
  rw [hfind]
  simp [hperm, haa]

/-- C2 witness: the public package `pkgPub` downloaded with no session and
no basic-auth credentials. -/
theorem c2_public_anonymous_serve_witness :
    download_dist stPub none none "dists/pubpkg-1.0.tar.gz" =
      ⟨DownloadResponse.served true,
       [serveLine "Anonymous" distPub.release.package.name]⟩ :=
  c2_public_anonymous_serve stPub none none "dists/pubpkg-1.0.tar.gz" distPub
    (by decide) (by decide) (by decide)

/-- C3, counterexample: the superuser `uRoot` has no group intersecting
`pkgGrp.download_permissions`, yet the download under the group-restricted
package is served (HTTP 200 with an audit line), not denied with 403 — the
claim's denial does not hold for every principal without an intersecting
group. -/
theorem c3_counterexample :
    pkgGrp.download_permissions ≠ [] ∧
    pkgGrp.allow_authenticated = false ∧
    uRoot.groups.all (fun g => !pkgGrp.download_permissions.contains g) = true ∧
    download_dist stGrp (some uRoot) none "dists/grouppkg-1.0.tar.gz" =
      ⟨DownloadResponse.served true, [serveLine "root" "grouppkg"]⟩ := by
  decide

/-- C3 (amended): for a distribution of a package with non-empty
`download_permissions` and `allow_authenticated` false, a caller with no
session principal and failed credential fallback receives 401 with the
`pypi` challenge, and an authenticated non-superuser principal whose groups
do not intersect `download_permissions` receives 403 together with an audit
log line recording the principal's username and the package name. -/
theorem c3_restricted_denial_amended (st : Registry) (bu : Option User) (path : String)
    (dist : Distribution) (u : User)
    (hfind : st.distributions.find? (fun d => d.content == path) = some dist)
    (hne : dist.release.package.download_permissions ≠ [])
    (haa : dist.release.package.allow_authenticated = false)
    (hsu : u.is_superuser = false)
    (hdisj : dist.release.package.download_permissions.any
      (fun g => u.groups.contains g) = false) :
    download_dist st none none path = ⟨DownloadResponse.unauthorized "pypi", []⟩ ∧
    download_dist st (some u) bu path =
      ⟨DownloadResponse.forbidden (deniedLine u.username dist.release.package.name),
       [deniedLine u.username dist.release.package.name]⟩ := by
  have hcond : (dist.release.package.download_permissions.length == 0 &&
      !dist.release.package.allow_authenticated) = false := by
    cases hl : dist.release.package.download_permissions with
    | nil => exact absurd hl hne
    | cons a as => simp [hl]
  have hra : read_access u dist.release.package = false := by
    unfold read_access
    cases hl : dist.release.package.download_permissions with
    | nil => exact absurd hl hne
    | cons a as =>
      rw [hl] at hdisj
      simp [hsu, haa, hl]
      simpa using hdisj
  have hcont := contains_user_packages_eq_false st.packages u dist.release.package hra
  constructor
  · unfold download_dist
    rw [hfind]
    simp [hcond]
  · unfold download_dist
    rw [hfind]
    simp [hcond]
    simpa using hcont

/-- C3 witness: the group-restricted package `pkgGrp`, an anonymous caller
with failed credential fallback, and the non-member `uBob`. -/
theorem c3_restricted_denial_amended_witness :
    download_dist stGrp none none "dists/grouppkg-1.0.tar.gz" =
      ⟨DownloadResponse.unauthorized "pypi", []⟩ ∧
    download_dist stGrp (some uBob) none "dists/grouppkg-1.0.tar.gz" =
      ⟨DownloadResponse.forbidden (deniedLine uBob.username distGrp.release.package.name),
       [deniedLine uBob.username distGrp.release.package.name]⟩ :=
  c3_restricted_denial_amended stGrp none "dists/grouppkg-1.0.tar.gz" distGrp uBob
    (by decide) (by decide) (by decide) (by decide) (by decide)

/-- C5: for an authenticated non-superuser principal, every release of a
package with `allow_authenticated = true` is in the principal's visible set
`user_releases`, regardless of the principal's groups and of the contents of
`download_permissions`. -/
theorem c5_allow_authenticated_visible (st : Registry) (u : User) (r : Release)
    (hsu : u.is_superuser = false)
    (hmem : r ∈ st.releases)
    (haa : r.package.allow_authenticated = true) :
    r ∈ user_releases st.releases u := by
  unfold user_releases
  simp [hsu, List.mem_filter, hmem, haa]

/-- C5 witness: `uBob` (no matching group, not a superuser) sees the release
of `pkgAA`, whose `allow_authenticated` is true. -/
theorem c5_allow_authenticated_visible_witness :
    relAA ∈ user_releases stAA.releases uBob :=
  c5_allow_authenticated_visible stAA uBob relAA (by decide) (by decide) (by decide)

/-- The `(package, version)` row-key test. -/
def releaseKeyIs (pname ver : String) (x : Release) : Bool :=
  x.package.name == pname && x.version == ver

/-- Modelled from the spec: `Package.get_release(version)` lives in
`djangopypi/models.py`, which is not among the provided sources; per spec
§4.1 (`find_release(package, version) -> Release | NotFound`) it returns the
package's release carrying the given version string, if any. -/
def get_release (st : Registry) (p : Package) (version : String) : Option Release :=
  st.releases.find? (releaseKeyIs p.name version)

/-- Responses of the `details` view: `redirect_to_login`, the rendered
release detail, `HttpResponseForbidden`, or `Http404`. -/
inductive DetailsResponse where
  | redirectToLogin
  | detail (r : Release)
  | forbidden
  | notFound
deriving DecidableEq

/-- `details(request, package, version, simple)` (views/releases.py:51).
Resolves the package (`get_object_or_404`) and the release (`get_release`,
404 when absent).  With `simple` false it requires an authenticated session,
then renders the detail from the `user_releases` queryset, turning the
resulting `Http404` into a 403; with `simple` true it renders the detail
from the unrestricted `Release.objects.all()` queryset with no
authentication and no permission check. -/
def details (st : Registry) (sessionUser : Option User) (pkg ver : String)
    (simple : Bool) : DetailsResponse :=
  match st.packages.find? (fun q => q.name == pkg) with
  | none => DetailsResponse.notFound
  | some p =>
    match get_release st p ver with
    | none => DetailsResponse.notFound
    | some release =>
      if !simple then
        match sessionUser with
        | none => DetailsResponse.redirectToLogin
        | some u =>
          if (user_releases st.releases u).contains release then
            DetailsResponse.detail release
          else
            DetailsResponse.forbidden
      else
        if st.releases.contains release then
          DetailsResponse.detail release
        else
          DetailsResponse.notFound

/-- C4: for every existing (package, version) release, `details` invoked
with `simple = true` returns the release detail drawn from the unrestricted
set of all releases, for every caller — the session principal (possibly
anonymous) is never consulted and no permission check happens, so releases
of group-restricted packages are individually addressable anonymously. -/
theorem c4_simple_details_unrestricted (st : Registry) (su : Option User)
    (pkg ver : String) (p : Package) (r : Release)
    (hp : st.packages.find? (fun q => q.name == pkg) = some p)
    (hr : get_release st p ver = some r) :
    details st su pkg ver true = DetailsResponse.detail r := by
  have hmem : r ∈ st.releases := List.mem_of_find?_eq_some hr
  unfold details
  simp [hp, hr, hmem]

/-- C4 witness: the release of the group-restricted package `pkgGrp` is
served by the simple interface to an anonymous caller. -/
theorem c4_simple_details_unrestricted_witness :
    details stGrp none "grouppkg" "1.0" true = DetailsResponse.detail relGrp :=
  c4_simple_details_unrestricted stGrp none "grouppkg" "1.0" pkgGrp relGrp
    (by decide) (by decide)


/-- Lexicographic comparison of character sequences by code point; the
deterministic concretization of the database collation used when modelling
`order_by`. -/
def lexLe : List Char → List Char → Bool
  | [], _ => true
  | _ :: _, [] => false
  | c :: cs, d :: ds =>
    if c.toNat < d.toNat then true
    else if d.toNat < c.toNat then false
    else lexLe cs ds

/-- Lexicographic comparison of strings by code point. -/
def strLe (a b : String) : Bool := lexLe a.data b.data

/-- `lexLe` is total. -/
theorem lexLe_total (a b : List Char) : (lexLe a b || lexLe b a) = true := by
  induction a generalizing b with
  | nil => simp [lexLe]
  | cons c cs ih =>
    cases b with
    | nil => simp [lexLe]
    | cons d ds =>
      by_cases h1 : c.toNat < d.toNat
      · simp [lexLe, h1]
      · by_cases h2 : d.toNat < c.toNat
        · simp [lexLe, h1, h2]
        · simp [lexLe, h1, h2, ih ds]

/-- `lexLe` is transitive. -/
theorem lexLe_trans (a b c : List Char) (hab : lexLe a b = true)
    (hbc : lexLe b c = true) : lexLe a c = true := by
  induction a generalizing b c with
  | nil => simp [lexLe]
  | cons x xs ih =>
    cases b with
    | nil => simp [lexLe] at hab
    | cons y ys =>
      cases c with
      | nil => simp [lexLe] at hbc
      | cons z zs =>
        rcases Nat.lt_trichotomy x.toNat y.toNat with hxy | hxy | hxy <;>
          rcases Nat.lt_trichotomy y.toNat z.toNat with hyz | hyz | hyz
        · simp [lexLe, show x.toNat < z.toNat by omega]
        · simp [lexLe, show x.toNat < z.toNat by omega]
        · simp [lexLe, show ¬ y.toNat < z.toNat by omega, hyz] at hbc
        · simp [lexLe, show x.toNat < z.toNat by omega]
        · have h1 : ¬ x.toNat < y.toNat := by omega
          have h2 : ¬ y.toNat < x.toNat := by omega
          have h3 : ¬ y.toNat < z.toNat := by omega
          have h4 : ¬ z.toNat < y.toNat := by omega
          have h5 : ¬ x.toNat < z.toNat := by omega
          have h6 : ¬ z.toNat < x.toNat := by omega
          simp [lexLe, h1, h2] at hab
          simp [lexLe, h3, h4] at hbc
          simp [lexLe, h5, h6]
          exact ih ys zs hab hbc
        · simp [lexLe, show ¬ y.toNat < z.toNat by omega, hyz] at hbc
        · simp [lexLe, show ¬ x.toNat < y.toNat by omega, hxy] at hab
        · simp [lexLe, show ¬ x.toNat < y.toNat by omega, hxy] at hab
        · simp [lexLe, show ¬ x.toNat < y.toNat by omega, hxy] at hab

/-- The comparison `order_by('package__name')` sorts by: the package name,
and nothing else. -/
def byPackageName (a b : Release) : Bool := strLe a.package.name b.package.name

/-- Order on releases by package name alone, as a proposition. -/
def nameLeProp (a b : Release) : Prop := strLe a.package.name b.package.name = true

/-- The queryset of `index` for an authenticated user (views/releases.py:47):
`user_releases(request.user).filter(hidden=False).order_by('package__name')`.
`order_by` is modelled as a stable sort on the single key the code passes —
the package name; the code does not ask for any ordering by version. -/
def indexListing (st : Registry) (u : User) : List Release :=
  ((user_releases st.releases u).filter (fun r => r.hidden == false)).mergeSort
    byPackageName

/-- Responses of the `index` view: `redirect_to_login` for anonymous
callers, else the rendered object list. -/
inductive IndexResponse where
  | redirectToLogin
  | listing (releases : List Release)
deriving DecidableEq

/-- `index(request)` (views/releases.py:41): anonymous callers are
redirected to login; authenticated ones get the default release listing. -/
def index (st : Registry) (sessionUser : Option User) : IndexResponse :=
  match sessionUser with
  | none => IndexResponse.redirectToLogin
  | some u => IndexResponse.listing (indexListing st u)

/-- A public package used for the listing-order counterexample. -/
def pkgAlpha : Package := ⟨"alphapkg", [], [], [], false⟩

/-- Release 2.0 of `pkgAlpha`, stored before release 1.0. -/
def relAlpha2 : Release := ⟨pkgAlpha, "2.0", "1.0", [], false⟩

/-- Release 1.0 of `pkgAlpha`, stored after release 2.0. -/
def relAlpha1 : Release := ⟨pkgAlpha, "1.0", "1.0", [], false⟩

/-- Registry holding the two `pkgAlpha` releases in order 2.0, 1.0. -/
def stAlpha : Registry := ⟨[pkgAlpha], [relAlpha2, relAlpha1], []⟩

/-- C9, counterexample: in the default listing for `uBob`, version `2.0` of
`alphapkg` precedes version `1.0` of the same package even though `1.0`
sorts strictly before `2.0`, so the listing is NOT ordered by package name
and then by version — `order_by` is passed the package name only. -/
theorem c9_counterexample :
    index stAlpha (some uBob) = IndexResponse.listing [relAlpha2, relAlpha1] ∧
    relAlpha2.package.name = relAlpha1.package.name ∧
    strLe relAlpha2.version relAlpha1.version = false := by
  constructor
  · have h1 : (user_releases stAlpha.releases uBob).filter
        (fun r => r.hidden == false) = [relAlpha2, relAlpha1] := by decide
    have h2 : List.mergeSort [relAlpha2, relAlpha1] byPackageName =
        [relAlpha2, relAlpha1] := List.mergeSort_of_sorted (by decide)
    show IndexResponse.listing (indexListing stAlpha uBob) = _
    unfold indexListing
    rw [h1, h2]
  · exact ⟨by decide, by decide⟩

/-- C9 (amended): the default listing for an authenticated principal
contains exactly the releases visible to that principal whose hidden flag is
false, and is ordered by package name — but not further by version. -/
theorem c9_index_amended (st : Registry) (u : User) (r : Release) :
    index st (some u) = IndexResponse.listing (indexListing st u) ∧
    (r ∈ indexListing st u ↔ r ∈ user_releases st.releases u ∧ r.hidden = false) ∧
    (indexListing st u).Pairwise nameLeProp := by
  refine ⟨rfl, ?_, ?_⟩
  · unfold indexListing
    simp [List.mem_filter]
  · unfold indexListing
    exact (List.sorted_mergeSort
      (fun a b c (hab : byPackageName a b = true) (hbc : byPackageName b c = true) =>
        lexLe_trans _ _ _ hab hbc)
      (fun a b => lexLe_total _ _)
      ((user_releases st.releases u).filter (fun r => r.hidden == false))).imp
      (fun hab => hab)


/-- `MultiValueDict.getlist`: the ordered values stored under a key
(default `[]` when the key is absent). -/
def getlist : PackageInfo → String → List String
  | [], _ => []
  | kv :: rest, k => if kv.1 == k then kv.2 else getlist rest k

/-- `QueryDict.setlist`: replace the values stored under a key (append the
entry when the key is absent). -/
def setlist : PackageInfo → String → List String → PackageInfo
  | [], k, vs => [(k, vs)]
  | kv :: rest, k, vs =>
    if kv.1 == k then (k, vs) :: rest else kv :: setlist rest k vs

/-- `QueryDict.__setitem__`: `release.package_info[key] = value` stores the
singleton list `[value]`. -/
def setitem (pi : PackageInfo) (k v : String) : PackageInfo :=
  setlist pi k [v]

/-- A cleaned form value: Django's metadata forms produce either a string
(single-valued field) or an iterable of strings (multi-valued field). -/
inductive FormValue where
  | str (s : String)
  | multi (vs : List String)
deriving DecidableEq

/-- The stored value list a cleaned form value ends up as: `pi[key] = s`
stores `[s]`, `pi.setlist(key, vs)` stores `vs`. -/
def valueToList : FormValue → List String
  | FormValue.str s => [s]
  | FormValue.multi vs => vs

/-- The newline join of character sequences, the char-level model of
Python's `'\n'.join`. -/
def joinNlChars : List (List Char) → List Char
  | [] => []
  | [a] => a
  | a :: b :: rest => a ++ '\n' :: joinNlChars (b :: rest)

/-- `'\n'.join(values)` (views/releases.py:128). -/
def joinNl (ss : List String) : String :=
  String.mk (joinNlChars (ss.map String.data))

/-- Splitting a character sequence at newlines; the char-level reading of
the claim's "line-split list of values". -/
def splitNlChars : List Char → List (List Char)
  | [] => [[]]
  | c :: cs =>
    if c = '\n' then [] :: splitNlChars cs
    else
      match splitNlChars cs with
      | [] => [[c]]
      | r :: rs => (c :: r) :: rs

/-- Splitting a string into its newline-separated lines. -/
def lineSplit (s : String) : List String :=
  (splitNlChars s.data).map String.mk

/-- `multivalue = ('classifier',)` (views/releases.py:122): the keys whose
form field is inherently multi-valued. -/
def multivalue : List String := ["classifier"]

/-- One entry of the `initial` dictionary computed from
`release.package_info.iterlists()` (views/releases.py:124): a multi-valued
key keeps its value list, any other key is joined on newlines. -/
def initialEntry (kv : String × List String) : String × FormValue :=
  if multivalue.contains kv.1 then (kv.1, FormValue.multi kv.2)
  else (kv.1, FormValue.str (joinNl kv.2))

/-- The full `initial` dictionary of `manage_metadata`'s read path. -/
def initialOf (pi : PackageInfo) : List (String × FormValue) :=
  pi.map initialEntry

/-- Reading one key back through `manage_metadata`'s `initial` computation. -/
def initialGet (pi : PackageInfo) (k : String) : Option FormValue :=
  ((initialOf pi).find? (fun kv => kv.1 == k)).map Prod.snd

/-- One iteration of the write loop of `manage_metadata`
(views/releases.py:134): a string value is written by item assignment, an
iterable one via `setlist`. -/
def writeValue (pi : PackageInfo) (k : String) : FormValue → PackageInfo
  | FormValue.str s => setitem pi k s
  | FormValue.multi vs => setlist pi k vs

/-- The write loop of `manage_metadata` (views/releases.py:134): every
`(key, value)` of `form.cleaned_data` is written into `package_info`. -/
def applyCleanedData (pi : PackageInfo) (cd : List (String × FormValue)) : PackageInfo :=
  cd.foldl (fun acc kv => writeValue acc kv.1 kv.2) pi

/-- `release.save()` after the metadata write: the row with the release's
(package, version) key gets the rebuilt `package_info`. -/
def saveRelease (rs : List Release) (pname ver : String) (info : PackageInfo) :
    List Release :=
  rs.map (fun r =>
    if releaseKeyIs pname ver r then
      Release.mk r.package r.version r.metadata_version info r.hidden
    else r)

/-- Outcomes of `manage_metadata`: the two `Http404`s (missing
package/release, and the unsupported-metadata-version rejection of
views/releases.py:109), a successful save, or a rendered page (GET, or an
invalid form). -/
inductive MetadataOutcome where
  | notFound
  | unsupported
  | saved
  | rendered
deriving DecidableEq

/-- `manage_metadata(request, package, version)` (views/releases.py:97).
`conf.METADATA_FORMS` (djangopypi/conf.py, not among the provided sources)
is modelled by the list of metadata versions with a registered schema
handler, which is all the view reads from it.  The request is modelled by
`post`: `none` for GET, `some none` for a POST whose form fails validation,
and `some (some cd)` for a POST whose form validates with cleaned data
`cd`.  Returns the outcome together with the registry after the request. -/
def manage_metadata (st : Registry) (forms : List String) (pkg ver : String)
    (post : Option (Option (List (String × FormValue)))) :
    MetadataOutcome × Registry :=
  match st.packages.find? (fun q => q.name == pkg) with
  | none => (MetadataOutcome.notFound, st)
  | some p =>
    match get_release st p ver with
    | none => (MetadataOutcome.notFound, st)
    | some release =>
      if forms.contains release.metadata_version = false then
        (MetadataOutcome.unsupported, st)
      else
        match post with
        | some (some cd) =>
          (MetadataOutcome.saved,
           Registry.mk st.packages
             (saveRelease st.releases p.name ver
               (applyCleanedData release.package_info cd))
             st.distributions)
        | some none => (MetadataOutcome.rendered, st)
        | none => (MetadataOutcome.rendered, st)


/-- Reading back the key just written yields exactly the written values. -/
theorem getlist_setlist_self (pi : PackageInfo) (k : String) (vs : List String) :
    getlist (setlist pi k vs) k = vs := by
  induction pi with
  | nil => simp [setlist, getlist]
  | cons kv rest ih =>
    by_cases h : kv.1 == k
    · simp [setlist, h, getlist]
    · simp [setlist, h, getlist, ih]

/-- Writing one key leaves every other key's values unchanged. -/
theorem getlist_setlist_other (pi : PackageInfo) (k k2 : String) (vs : List String)
    (h : k2 ≠ k) : getlist (setlist pi k2 vs) k = getlist pi k := by
  induction pi with
  | nil => simp [setlist, getlist, h]
  | cons kv rest ih =>
    by_cases h2 : kv.1 == k2
    · have hk : kv.1 = k2 := by simpa using h2
      simp [setlist, h2, getlist, hk, h]
    · simp [setlist, h2, getlist, ih]

/-- Reading the key just written through `writeValue` yields the stored
singleton or list. -/
theorem getlist_writeValue_self (pi : PackageInfo) (k : String) (v : FormValue) :
    getlist (writeValue pi k v) k = valueToList v := by
  cases v with
  | str s => exact getlist_setlist_self pi k [s]
  | multi vs => exact getlist_setlist_self pi k vs

/-- Writing one key leaves every other key unchanged, for either value
shape. -/
theorem getlist_writeValue_other (pi : PackageInfo) (k k2 : String) (v : FormValue)
    (h : k2 ≠ k) : getlist (writeValue pi k2 v) k = getlist pi k := by
  cases v with
  | str s => exact getlist_setlist_other pi k k2 [s] h
  | multi vs => exact getlist_setlist_other pi k k2 vs h

/-- The write loop leaves keys outside the cleaned data untouched. -/
theorem getlist_applyCleanedData_of_not_mem (cd : List (String × FormValue))
    (pi : PackageInfo) (k : String)
    (h : k ∉ cd.map Prod.fst) :
    getlist (applyCleanedData pi cd) k = getlist pi k := by
  induction cd generalizing pi with
  | nil => rfl
  | cons kv rest ih =>
    simp only [List.map_cons, List.mem_cons, not_or] at h
    have hstep : applyCleanedData pi (kv :: rest) =
        applyCleanedData (writeValue pi kv.1 kv.2) rest := rfl
    rw [hstep, ih _ h.2]
    exact getlist_writeValue_other pi k kv.1 kv.2 (fun he => h.1 he.symm)

/-- After the write loop, every key of the cleaned data stores exactly the
submitted value, independent of the previous `package_info`. -/
theorem getlist_applyCleanedData (cd : List (String × FormValue))
    (pi : PackageInfo) (k : String) (v : FormValue)
    (hmem : (k, v) ∈ cd)
    (hnd : (cd.map Prod.fst).Nodup) :
    getlist (applyCleanedData pi cd) k = valueToList v := by
  induction cd generalizing pi with
  | nil => cases hmem
  | cons kv rest ih =>
    obtain ⟨k0, v0⟩ := kv
    have hstep : applyCleanedData pi ((k0, v0) :: rest) =
        applyCleanedData (writeValue pi k0 v0) rest := rfl
    rw [List.map_cons] at hnd
    rcases List.mem_cons.mp hmem with heq | hmem2
    · injection heq with h1 h2
      subst h1
      subst h2
      have hknotin : k ∉ rest.map Prod.fst := (List.nodup_cons.mp hnd).1
      rw [hstep, getlist_applyCleanedData_of_not_mem rest _ k hknotin]
      exact getlist_writeValue_self pi k v
    · rw [hstep]
      exact ih _ hmem2 (List.nodup_cons.mp hnd).2

/-- Both branches of `initialEntry` keep the entry's key. -/
theorem initialEntry_fst (kv : String × List String) : (initialEntry kv).1 = kv.1 := by
  unfold initialEntry
  split <;> rfl

/-- The `initial` entry built from `(k, vs)` satisfies the key predicate. -/
theorem initialEntry_pred (k : String) (vs : List String) :
    ((initialEntry (k, vs)).1 == k) = true := by
  rw [initialEntry_fst]
  exact beq_self_eq_true k

/-- The `initial` entry of a different key fails the key predicate. -/
theorem initialEntry_pred_other (kv : String × List String) (k : String)
    (h : (kv.1 == k) = false) : ((initialEntry kv).1 == k) = false := by
  rw [initialEntry_fst]
  exact h

/-- Reading a freshly written key back through the `initial` computation
yields the corresponding `initial` entry's value. -/
theorem initialGet_setlist (pi : PackageInfo) (k : String) (vs : List String) :
    initialGet (setlist pi k vs) k = some (initialEntry (k, vs)).2 := by
  induction pi with
  | nil =>
    unfold initialGet
    rw [show initialOf (setlist [] k vs) = [initialEntry (k, vs)] from rfl]
    simp only [List.find?, initialEntry_pred]
    rfl
  | cons kv rest ih =>
    by_cases h : (kv.1 == k) = true
    · unfold initialGet
      rw [show setlist (kv :: rest) k vs = (k, vs) :: rest from by simp [setlist, h]]
      rw [show initialOf ((k, vs) :: rest) =
            initialEntry (k, vs) :: initialOf rest from rfl]
      simp only [List.find?, initialEntry_pred]
      rfl
    · have hb : (kv.1 == k) = false := by
        simpa using h
      unfold initialGet at ih ⊢
      rw [show setlist (kv :: rest) k vs = kv :: setlist rest k vs from by
            simp [setlist, hb]]
      rw [show initialOf (kv :: setlist rest k vs) =
            initialEntry kv :: initialOf (setlist rest k vs) from rfl]
      simp only [List.find?, initialEntry_pred_other kv k hb]
      exact ih


/-- Joining a single line is the identity. -/
theorem joinNl_singleton (s : String) : joinNl [s] = s := rfl

/-- Splitting never produces the empty list of lines. -/
theorem splitNlChars_ne_nil (l : List Char) : splitNlChars l ≠ [] := by
  cases l with
  | nil => simp [splitNlChars]
  | cons c cs =>
    by_cases h : c = '\n'
    · simp [splitNlChars, h]
    · simp only [splitNlChars, h, if_false]
      cases hs : splitNlChars cs <;> simp

/-- A newline-free character sequence splits into the single line it is. -/
theorem splitNlChars_no_newline (a : List Char) (h : '\n' ∉ a) :
    splitNlChars a = [a] := by
  induction a with
  | nil => rfl
  | cons c cs ih =>
    simp only [List.mem_cons, not_or] at h
    rw [splitNlChars, if_neg (fun he => h.1 he.symm), ih h.2]

/-- Splitting a sequence that starts with a newline-free line, a newline and
a tail peels off exactly that first line. -/
theorem splitNlChars_line_append (a t : List Char) (h : '\n' ∉ a) :
    splitNlChars (a ++ '\n' :: t) = a :: splitNlChars t := by
  induction a with
  | nil => simp [splitNlChars]
  | cons c cs ih =>
    simp only [List.mem_cons, not_or] at h
    rw [List.cons_append, splitNlChars, if_neg (fun he => h.1 he.symm), ih h.2]

/-- Splitting undoes joining, for a nonempty list of newline-free lines. -/
theorem splitNlChars_joinNlChars (ls : List (List Char)) (h1 : ls ≠ [])
    (h2 : ∀ l ∈ ls, '\n' ∉ l) :
    splitNlChars (joinNlChars ls) = ls := by
  induction ls with
  | nil => cases h1 rfl
  | cons a rest ih =>
    cases rest with
    | nil =>
      rw [joinNlChars]
      exact splitNlChars_no_newline a (h2 a (by simp))
    | cons b rest2 =>
      rw [joinNlChars, splitNlChars_line_append _ _ (h2 a (by simp))]
      rw [ih (by simp) (fun l hl => h2 l (by simp [hl]))]

/-- String-level round trip: `'\n'.join(ws)` line-splits back to `ws` when
`ws` is nonempty and none of its members contains a newline. -/
theorem lineSplit_joinNl (ws : List String) (h1 : ws ≠ [])
    (h2 : ∀ s ∈ ws, '\n' ∉ s.data) :
    lineSplit (joinNl ws) = ws := by
  unfold lineSplit joinNl
  rw [show (String.mk (joinNlChars (ws.map String.data))).data
        = joinNlChars (ws.map String.data) from rfl]
  rw [splitNlChars_joinNlChars (ws.map String.data)
        (by simpa using h1)
        (fun l hl => by
          obtain ⟨s, hs, he⟩ := List.mem_map.mp hl
          rw [← he]
          exact h2 s hs)]
  rw [List.map_map]
  conv_rhs => rw [← List.map_id ws]
  exact List.map_congr_left (fun s _ => rfl)


/-- `find?` over a saved release list returns the matching row with its
rebuilt `package_info`. -/
theorem find_saveRelease (rs : List Release) (pname ver : String)
    (info : PackageInfo) (r : Release)
    (h : rs.find? (releaseKeyIs pname ver) = some r) :
    (saveRelease rs pname ver info).find? (releaseKeyIs pname ver) =
      some (Release.mk r.package r.version r.metadata_version info r.hidden) := by
  induction rs with
  | nil => simp at h
  | cons x rest ih =>
    by_cases hx : releaseKeyIs pname ver x = true
    · rw [List.find?_cons_of_pos _ hx] at h
      injection h with h
      subst h
      rw [show saveRelease (x :: rest) pname ver info =
            Release.mk x.package x.version x.metadata_version info x.hidden ::
              saveRelease rest pname ver info from by simp [saveRelease, hx]]
      rw [List.find?_cons_of_pos _ (show releaseKeyIs pname ver
            (Release.mk x.package x.version x.metadata_version info x.hidden) = true
          from hx)]
    · rw [List.find?_cons_of_neg _ hx] at h
      rw [show saveRelease (x :: rest) pname ver info =
            x :: saveRelease rest pname ver info from by simp [saveRelease, hx]]
      rw [List.find?_cons_of_neg _ hx]
      exact ih h

/-- The stored values under key `k` of the release that `(p, ver)` resolves
to in a registry, if any. -/
def releaseInfoValue (st : Registry) (p : Package) (ver k : String) :
    Option (List String) :=
  (get_release st p ver).map (fun r => getlist r.package_info k)

/-- C6: a successful metadata update fully replaces the recognized metadata
keys — after the save, every key of the validated cleaned data stores
exactly the submitted value (the singleton of a string, the list of an
iterable), independent of the previous `package_info`; in particular a
recognized key submitted blank ends up holding the blank value rather than
its previous one. -/
theorem c6_metadata_full_replace (st : Registry) (forms : List String)
    (pkg ver : String) (p : Package) (release : Release)
    (cd : List (String × FormValue)) (k : String) (v : FormValue)
    (hp : st.packages.find? (fun q => q.name == pkg) = some p)
    (hr : get_release st p ver = some release)
    (hv : forms.contains release.metadata_version = true)
    (hnd : (cd.map Prod.fst).Nodup)
    (hmem : (k, v) ∈ cd) :
    (manage_metadata st forms pkg ver (some (some cd))).1 = MetadataOutcome.saved ∧
    releaseInfoValue (manage_metadata st forms pkg ver (some (some cd))).2 p ver k =
      some (valueToList v) := by
  have hv2 : release.metadata_version ∈ forms := by
    simpa using hv
  have hres : manage_metadata st forms pkg ver (some (some cd)) =
      (MetadataOutcome.saved,
       Registry.mk st.packages
         (saveRelease st.releases p.name ver
           (applyCleanedData release.package_info cd))
         st.distributions) := by
    unfold manage_metadata
    simp [hp, hr, hv2]
  rw [hres]
  refine ⟨rfl, ?_⟩
  unfold releaseInfoValue get_release
  rw [show (Registry.mk st.packages
        (saveRelease st.releases p.name ver
          (applyCleanedData release.package_info cd))
        st.distributions).releases =
      saveRelease st.releases p.name ver
        (applyCleanedData release.package_info cd) from rfl]
  rw [find_saveRelease st.releases p.name ver _ release hr]
  rw [show Option.map (fun r => getlist r.package_info k)
        (some (Release.mk release.package release.version release.metadata_version
          (applyCleanedData release.package_info cd) release.hidden)) =
      some (getlist (applyCleanedData release.package_info cd) k) from rfl]
  rw [getlist_applyCleanedData cd release.package_info k v hmem hnd]

/-- A registry for the metadata-update witness. -/
def pkgMeta : Package := ⟨"metapkg", [], [], [], false⟩

/-- The release whose metadata the witness updates. -/
def relMeta : Release := ⟨pkgMeta, "1.0", "1.0", [("summary", ["old line"])], false⟩

/-- Registry holding only `pkgMeta` and `relMeta`. -/
def stMeta : Registry := ⟨[pkgMeta], [relMeta], []⟩

/-- Cleaned form data overwriting `summary` and `classifier`. -/
def cdMeta : List (String × FormValue) :=
  [("summary", FormValue.str "new summary"),
   ("classifier", FormValue.multi ["A", "B"])]

/-- C6 witness: updating `relMeta` with `cdMeta` saves, and `summary` holds
exactly the newly submitted value. -/
theorem c6_metadata_full_replace_witness :
    (manage_metadata stMeta ["1.0"] "metapkg" "1.0" (some (some cdMeta))).1 =
      MetadataOutcome.saved ∧
    releaseInfoValue (manage_metadata stMeta ["1.0"] "metapkg" "1.0"
        (some (some cdMeta))).2 pkgMeta "1.0" "summary" =
      some (valueToList (FormValue.str "new summary")) :=
  c6_metadata_full_replace stMeta ["1.0"] "metapkg" "1.0" pkgMeta relMeta cdMeta
    "summary" (FormValue.str "new summary")
    (by decide) (by decide) (by decide) (by decide) (by decide)

/-- C7: metadata round-trip.  Writing the multi-valued key `classifier`
through the metadata write loop and reading it back through the `initial`
computation returns the same ordered list; writing any single-valued key as
a newline-joined string reads back as that same string, whose line split is
the original list of values (for a nonempty list of newline-free values). -/
theorem c7_metadata_roundtrip (pi : PackageInfo) (k : String)
    (vs ws : List String)
    (hk : multivalue.contains k = false)
    (hne : ws ≠ [])
    (hnl : ∀ s ∈ ws, '\n' ∉ s.data) :
    initialGet (applyCleanedData pi [("classifier", FormValue.multi vs)])
        "classifier" = some (FormValue.multi vs) ∧
    initialGet (applyCleanedData pi [(k, FormValue.str (joinNl ws))]) k =
      some (FormValue.str (joinNl ws)) ∧
    lineSplit (joinNl ws) = ws := by
  refine ⟨?_, ?_, lineSplit_joinNl ws hne hnl⟩
  · rw [show applyCleanedData pi [("classifier", FormValue.multi vs)] =
        setlist pi "classifier" vs from rfl]
    rw [initialGet_setlist]
    rw [show initialEntry ("classifier", vs) =
        ("classifier", FormValue.multi vs) from by simp [initialEntry, multivalue]]
  · rw [show applyCleanedData pi [(k, FormValue.str (joinNl ws))] =
        setlist pi k [joinNl ws] from rfl]
    rw [initialGet_setlist]
    have hk2 : k ∉ multivalue := by
      simpa using hk
    rw [show initialEntry (k, [joinNl ws]) =
        (k, FormValue.str (joinNl [joinNl ws])) from by simp [initialEntry, hk2]]
    rw [joinNl_singleton]

/-- C7 witness: the round trip on concrete data — classifiers `["A", "B"]`
and the single-valued key `description` holding the two lines `alpha`,
`beta`. -/
theorem c7_metadata_roundtrip_witness :
    initialGet (applyCleanedData [("summary", ["old"])]
        [("classifier", FormValue.multi ["A", "B"])]) "classifier" =
      some (FormValue.multi ["A", "B"]) ∧
    initialGet (applyCleanedData [("summary", ["old"])]
        [("description", FormValue.str (joinNl ["alpha", "beta"]))])
        "description" =
      some (FormValue.str (joinNl ["alpha", "beta"])) ∧
    lineSplit (joinNl ["alpha", "beta"]) = ["alpha", "beta"] :=
  c7_metadata_roundtrip [("summary", ["old"])] "description" ["A", "B"]
    ["alpha", "beta"] (by decide) (by decide) (by decide)

/-- C8: when the release's `metadata_version` has no registered schema
handler, `manage_metadata` rejects with the 404-equivalent unsupported
outcome before any mutation — for every request method and form content the
registry (hence the release's `package_info`) is returned unchanged. -/
theorem c8_unsupported_metadata (st : Registry) (forms : List String)
    (pkg ver : String) (post : Option (Option (List (String × FormValue))))
    (p : Package) (release : Release)
    (hp : st.packages.find? (fun q => q.name == pkg) = some p)
    (hr : get_release st p ver = some release)
    (hv : forms.contains release.metadata_version = false) :
    manage_metadata st forms pkg ver post = (MetadataOutcome.unsupported, st) := by
  have hv2 : release.metadata_version ∉ forms := by
    simpa using hv
  unfold manage_metadata
  simp [hp, hr, hv2]

/-- C8 witness: `relMeta` has metadata version `1.0`, the registry of form
handlers only knows `1.2`; a POST carrying `cdMeta` is rejected and the
registry is unchanged. -/
theorem c8_unsupported_metadata_witness :
    manage_metadata stMeta ["1.2"] "metapkg" "1.0" (some (some cdMeta)) =
      (MetadataOutcome.unsupported, stMeta) :=
  c8_unsupported_metadata stMeta ["1.2"] "metapkg" "1.0" (some (some cdMeta))
    pkgMeta relMeta (by decide) (by decide) (by decide)


/-- Registry mutation failures of spec §4.1 / §7. -/
inductive RegistryError where
  | duplicateVersion
  | duplicateArtifact
deriving DecidableEq

/-- Modelled from the spec: `create_release(package, version,
metadata_version, info)` of the Version Registry (§4.1) — the creation code
is not among the provided sources; it fails with `DuplicateVersion` when a
release with the same `(package, version)` key exists (the `unique_together`
constraint of migrations/0003_auto.py on `djangopypi.release`), else
appends the new row. -/
def create_release (st : Registry) (p : Package) (ver mv : String)
    (info : PackageInfo) : Except RegistryError Registry :=
  if st.releases.any (releaseKeyIs p.name ver) then
    Except.error RegistryError.duplicateVersion
  else
    Except.ok (Registry.mk st.packages
      (st.releases ++ [Release.mk p ver mv info false]) st.distributions)

/-- The `(release, filetype, pyversion)` row-key test, releases being keyed
by `(package, version)`. -/
def distKeyIs (pname ver ft pv : String) (d : Distribution) : Bool :=
  d.release.package.name == pname && d.release.version == ver &&
  d.filetype == ft && d.pyversion == pv

/-- Modelled from the spec: `attach_distribution(release, filetype,
pyversion, blob_ref, digest, uploader)` of the Version Registry (§4.1) — the
creation code is not among the provided sources; it fails with
`DuplicateArtifact` when an artifact with the same
`(release, filetype, pyversion)` key exists (the `unique_together`
constraint of migrations/0003_auto.py on `djangopypi.distribution`), else
appends the new row. -/
def attach_distribution (st : Registry) (r : Release)
    (ft pv blob digest comment uploader : String) :
    Except RegistryError Registry :=
  if st.distributions.any (distKeyIs r.package.name r.version ft pv) then
    Except.error RegistryError.duplicateArtifact
  else
    Except.ok (Registry.mk st.packages st.releases
      (st.distributions ++ [Distribution.mk r ft pv blob digest comment uploader]))

/-- The registry states reachable from an artifact-free initial state
through the mutating operations: release creation, artifact attachment, and
the metadata-management view. -/
inductive Reachable : Registry → Prop where
  | init (packages : List Package) : Reachable (Registry.mk packages [] [])
  | create (st st2 : Registry) (p : Package) (ver mv : String)
      (info : PackageInfo) :
      Reachable st → create_release st p ver mv info = Except.ok st2 →
      Reachable st2
  | attach (st st2 : Registry) (r : Release)
      (ft pv blob digest comment uploader : String) :
      Reachable st →
      attach_distribution st r ft pv blob digest comment uploader =
        Except.ok st2 →
      Reachable st2
  | metadata (st : Registry) (forms : List String) (pkg ver : String)
      (post : Option (Option (List (String × FormValue)))) :
      Reachable st → Reachable (manage_metadata st forms pkg ver post).2

/-- Two releases with distinct `(package, version)` keys. -/
def releaseKeyNe (a b : Release) : Prop :=
  (a.package.name, a.version) ≠ (b.package.name, b.version)

/-- Two distributions with distinct `(release, filetype, pyversion)` keys. -/
def distKeyNe (a b : Distribution) : Prop :=
  (a.release.package.name, a.release.version, a.filetype, a.pyversion) ≠
  (b.release.package.name, b.release.version, b.filetype, b.pyversion)

/-- `saveRelease` never changes a row's `(package, version)` key. -/
theorem saveRelease_key_preserved (pname ver : String) (info : PackageInfo)
    (r : Release) :
    ((if releaseKeyIs pname ver r then
        Release.mk r.package r.version r.metadata_version info r.hidden
      else r).package.name,
     (if releaseKeyIs pname ver r then
        Release.mk r.package r.version r.metadata_version info r.hidden
      else r).version) = (r.package.name, r.version) := by
  by_cases h : releaseKeyIs pname ver r = true <;> simp [h]

/-- Key uniqueness survives a metadata save. -/
theorem pairwise_saveRelease (rs : List Release) (pname ver : String)
    (info : PackageInfo)
    (h : rs.Pairwise releaseKeyNe) :
    (saveRelease rs pname ver info).Pairwise releaseKeyNe := by
  unfold saveRelease
  rw [List.pairwise_map]
  refine h.imp_of_mem ?_
  intro a b _ _ hab
  unfold releaseKeyNe at hab ⊢
  rw [saveRelease_key_preserved pname ver info a,
    saveRelease_key_preserved pname ver info b]
  exact hab

/-- Key uniqueness of both tables survives `manage_metadata`. -/
theorem manage_metadata_preserves_keys (st : Registry) (forms : List String)
    (pkg ver : String) (post : Option (Option (List (String × FormValue))))
    (h1 : st.releases.Pairwise releaseKeyNe)
    (h2 : st.distributions.Pairwise distKeyNe) :
    (manage_metadata st forms pkg ver post).2.releases.Pairwise releaseKeyNe ∧
    (manage_metadata st forms pkg ver post).2.distributions.Pairwise distKeyNe := by
  unfold manage_metadata
  repeat' split
  all_goals first
    | exact ⟨h1, h2⟩
    | exact ⟨pairwise_saveRelease st.releases _ _ _ h1, h2⟩

/-- C10: in every reachable registry state the uniqueness invariants hold —
at most one release per `(package, version)` pair and at most one
distribution per `(release, filetype, pyversion)` triple, matching the
`unique_together` constraints declared in migrations/0003_auto.py. -/
theorem c10_uniqueness_invariant (st : Registry) (h : Reachable st) :
    st.releases.Pairwise releaseKeyNe ∧ st.distributions.Pairwise distKeyNe := by
  induction h with
  | init packages => exact ⟨List.Pairwise.nil, List.Pairwise.nil⟩
  | create st st2 p ver mv info _ hok ih =>
    unfold create_release at hok
    by_cases hany : st.releases.any (releaseKeyIs p.name ver) = true
    · rw [if_pos hany] at hok
      cases hok
    · rw [if_neg hany] at hok
      injection hok with hok
      subst hok
      refine ⟨?_, ih.2⟩
      rw [show (Registry.mk st.packages
            (st.releases ++ [Release.mk p ver mv info false])
            st.distributions).releases =
          st.releases ++ [Release.mk p ver mv info false] from rfl]
      rw [List.pairwise_append]
      refine ⟨ih.1, List.pairwise_singleton _ _, ?_⟩
      intro a ha b hb
      rw [List.mem_singleton] at hb
      subst hb
      have hf : ¬ (releaseKeyIs p.name ver a = true) :=
        List.any_eq_false.mp (Bool.not_eq_true _ ▸ hany) a ha
      unfold releaseKeyNe
      intro hkey
      rw [Prod.mk.injEq] at hkey
      apply hf
      unfold releaseKeyIs
      rw [show (Release.mk p ver mv info false).package.name = p.name from rfl,
        show (Release.mk p ver mv info false).version = ver from rfl] at hkey
      simp [hkey.1, hkey.2]
  | attach st st2 r ft pv blob digest comment uploader _ hok ih =>
    unfold attach_distribution at hok
    by_cases hany : st.distributions.any (distKeyIs r.package.name r.version ft pv) = true
    · rw [if_pos hany] at hok
      cases hok
    · rw [if_neg hany] at hok
      injection hok with hok
      subst hok
      refine ⟨ih.1, ?_⟩
      rw [show (Registry.mk st.packages st.releases
            (st.distributions ++
              [Distribution.mk r ft pv blob digest comment uploader])).distributions =
          st.distributions ++
            [Distribution.mk r ft pv blob digest comment uploader] from rfl]
      rw [List.pairwise_append]
      refine ⟨ih.2, List.pairwise_singleton _ _, ?_⟩
      intro a ha b hb
      rw [List.mem_singleton] at hb
      subst hb
      have hf : ¬ (distKeyIs r.package.name r.version ft pv a = true) :=
        List.any_eq_false.mp (Bool.not_eq_true _ ▸ hany) a ha
      unfold distKeyNe
      intro hkey
      simp only [Prod.mk.injEq] at hkey
      apply hf
      unfold distKeyIs
      simp [hkey.1, hkey.2.1, hkey.2.2.1, hkey.2.2.2]
  | metadata st forms pkg ver post _ ih =>
    exact manage_metadata_preserves_keys st forms pkg ver post ih.1 ih.2

/-- C10 witness: the invariant instantiated at the reachable empty state. -/
theorem c10_uniqueness_invariant_witness :
    (Registry.mk [] [] []).releases.Pairwise releaseKeyNe ∧
    (Registry.mk [] [] []).distributions.Pairwise distKeyNe :=
  c10_uniqueness_invariant (Registry.mk [] [] []) (Reachable.init [])

end DjangoPyPI
